import Mathlib

/-!
Shallow embedding of `src/eeprom-writer.ino` (an Arduino EEPROM programmer).

Modelling conventions:
* A received command line `g_cmd` is a `List Nat` of the ASCII codes stored
  before the 0 terminator; reading `g_cmd[i]` is `cmdGet cmd i`, which returns
  0 past the end of the list (the terminator / cleared tail of the C array).
  The source's index variable `x` advancing through `g_cmd` is embedded as
  structural recursion over the remaining suffix of the list.
* Bytes and addresses are `Nat`.  The AVR `int` is 16 bits wide, so the
  address accumulation in `WriteEEPROM`/`FillBuffer` (an unbounded number of
  `addr = addr << 4; addr |= nibble` steps) truncates modulo 2^16; this is the
  `% 65536` in `parseAddrWSGo`.  The `R`/`N` parsers run at most 4 steps from
  0 and cannot overflow, so they carry no truncation.
* The EEPROM chip, the 16-byte transfer `buffer` and the 128-byte `pageWr`
  page buffer are embedded as total functions `Nat → Nat` so that the
  program's out-of-bounds accesses (e.g. `pageWr[kPageSize]`) stay visible as
  stores/loads at indices ≥ the declared capacity.  `PrepareBuffer` and
  `FillBuffer` additionally return the list of page-buffer store indices (and
  transfer-buffer load indices) they perform, in execution order.
* Serial output is modelled as the `String` printed by the handler;
  `Serial.println`'s line terminator is abstracted as `"\n"`.
  `Serial.print(v, HEX)` prints uppercase hex digits with no leading zeros,
  which is `printHexArduino`.
-/

def kMaxBufferSize : Nat := 16

def kPageSize : Nat := 128

/-- The lowercase hex digit table `hex[]` from the source. -/
def hex : List Char := "0123456789abcdef".toList

/-- `hex[n]` — always used with `n < 16` in the source. -/
def hexChar (n : Nat) : Char := hex.getD n '0'

/-- `HexToVal`: one ASCII hex character to its nibble; anything else is 0. -/
def HexToVal (b : Nat) : Nat :=
  if 48 ≤ b ∧ b ≤ 57 then b - 48
  else if 65 ≤ b ∧ b ≤ 70 then b - 65 + 10
  else if 97 ≤ b ∧ b ≤ 102 then b - 97 + 10
  else 0

/-- Reading `g_cmd[i]` from the command line: 0 past the stored characters. -/
def cmdGet (cmd : List Nat) (i : Nat) : Nat := cmd.getD i 0

/-- The mutable global state the command handlers touch: the EEPROM chip
contents, the 16-byte transfer `buffer`, the 128-byte page buffer `pageWr`
and `baseAddr`. -/
structure MachineState where
  chip : Nat → Nat
  buffer : Nat → Nat
  pageWr : Nat → Nat
  baseAddr : Nat

/-- `ReadByteFrom(addr)`: the chip drives 8 data pins, so the byte read is
the low 8 bits of the stored value; the address bus carries the 16-bit
`int` value. -/
def ReadByteFrom (chip : Nat → Nat) (addr : Nat) : Nat :=
  chip (addr % 65536) % 256

/-- `WriteByteTo(addr, b)` as a store into the chip memory map. -/
def WriteByteTo (chip : Nat → Nat) (addr v : Nat) : Nat → Nat :=
  fun a => if a = addr % 65536 then v else chip a

/-- `ReadEEPROMIntoBuffer(addr, size)`: `buffer[x] = ReadByteFrom(addr + x)`. -/
def ReadEEPROMIntoBuffer (chip buf : Nat → Nat) (addr size : Nat) : Nat → Nat :=
  (List.range size).foldl
    (fun b x => fun i => if i = x then ReadByteFrom chip (addr + x) else b i) buf

/-- `WriteBufferToEEPROM(addr, size)`: `WriteByteTo(addr + x, buffer[x])`. -/
def WriteBufferToEEPROM (chip buf : Nat → Nat) (addr size : Nat) : Nat → Nat :=
  (List.range size).foldl (fun c x => WriteByteTo c (addr + x) (buf x)) chip

/-- `CalcBufferChecksum(size)`: XOR fold of `buffer[0..size-1]`. -/
def CalcBufferChecksum (buf : Nat → Nat) (size : Nat) : Nat :=
  (List.range size).foldl (fun chk x => chk ^^^ buf x) 0

/-- `PrintBuffer(size)`: one loop printing two lowercase hex chars per byte
while XOR-folding the checksum, then `,`, the checksum as two hex chars and
a newline. -/
def PrintBuffer (buf : Nat → Nat) (size : Nat) : String :=
  let r := (List.range size).foldl
    (fun (acc : List Char × Nat) x =>
      (acc.1 ++ [hexChar ((buf x &&& 0xF0) >>> 4), hexChar (buf x &&& 0x0F)],
       acc.2 ^^^ buf x))
    ([], 0)
  String.mk r.1 ++ "," ++ String.mk [hexChar ((r.2 &&& 0xF0) >>> 4), hexChar (r.2 &&& 0x0F)]
    ++ "\n"

/-- Uppercase hex digit table used by Arduino's `Serial.print(v, HEX)`. -/
def hexUpper : List Char := "0123456789ABCDEF".toList

def toHexUpperAux : Nat → Nat → List Char
  | 0, _ => []
  | _, 0 => []
  | fuel + 1, n + 1 => toHexUpperAux fuel ((n + 1) / 16) ++ [hexUpper.getD ((n + 1) % 16) '0']

/-- Arduino `Serial.print(v, HEX)`: uppercase hex, no leading zeros, `0` for 0. -/
def printHexArduino (n : Nat) : String :=
  if n = 0 then "0" else String.mk (toHexUpperAux 8 n)

/-- The address loop of `ReadEEPROM`/`PrepareBuffer`:
`while (x < 5 && g_cmd[x] != 0) { addr = addr << 4; addr |= HexToVal(g_cmd[x++]); }`.
The first argument counts the remaining iterations allowed by `x < 5`
(4 when starting at `x = 1`); the list is the remaining suffix of `g_cmd`.
Returns the accumulated address and the unconsumed suffix. -/
def parseAddrRNGo : Nat → Nat → List Nat → Nat × List Nat
  | 0, addr, l => (addr, l)
  | _ + 1, addr, [] => (addr, [])
  | k + 1, addr, c :: rest =>
    if c ≠ 0 then parseAddrRNGo k ((addr <<< 4) ||| HexToVal c) rest
    else (addr, c :: rest)

/-- The address loop of `WriteEEPROM`/`FillBuffer`:
`while (g_cmd[x] != ':' && g_cmd[x] != 0) { addr = addr << 4; addr |= HexToVal(g_cmd[x]); ++x; }`.
No digit cap; `addr` is a 16-bit `int`, hence the `% 65536` truncation of the
shift.  Returns the accumulated address and the unconsumed suffix (whose head
is the `:` or the end of the line). -/
def parseAddrWSGo : Nat → List Nat → Nat × List Nat
  | addr, c :: rest =>
    if c ≠ 58 ∧ c ≠ 0 then parseAddrWSGo (((addr <<< 4) % 65536) ||| HexToVal c) rest
    else (addr, c :: rest)
  | addr, [] => (addr, [])

/-- The payload loop shared by `WriteEEPROM` and `FillBuffer`:
`while (g_cmd[x] && g_cmd[x+1] && iBufferUsed < kMaxBufferSize && g_cmd[x] != ',')`
decoding two hex chars into `buffer[iBufferUsed++]`.  (In `FillBuffer` the
decoded byte passes through an `int8_t`; the bit pattern stored in the byte
array is the same.)  Returns the updated buffer, `iBufferUsed`, and the
unconsumed suffix. -/
def decodeLoop : Nat → (Nat → Nat) → List Nat → (Nat → Nat) × Nat × List Nat
  | n, buf, c1 :: c2 :: rest =>
    if c1 ≠ 0 ∧ c2 ≠ 0 ∧ n < kMaxBufferSize ∧ c1 ≠ 44 then
      decodeLoop (n + 1)
        (fun i => if i = n then (HexToVal c1 <<< 4) ||| HexToVal c2 else buf i) rest
    else (buf, n, c1 :: c2 :: rest)
  | n, buf, l => (buf, n, l)

/-- `WriteEEPROM()`, handler of the `W` command. -/
def WriteEEPROM (st : MachineState) (cmd : List Nat) : MachineState × String :=
  if cmdGet cmd 1 = 0 then (st, "ERR\n")
  else
    let p := parseAddrWSGo 0 (cmd.drop 1)
    if cmdGet p.2 0 ≠ 58 then (st, "ERR\n")
    else
      let d := decodeLoop 0 st.buffer (p.2.drop 1)
      let buf := d.1
      let n := d.2.1
      let rem := d.2.2
      let st1 := { st with buffer := buf }
      let success : MachineState × String :=
        (if 0 < n then { st1 with chip := WriteBufferToEEPROM st1.chip buf p.1 n } else st1,
         "OK\n")
      if cmdGet rem 0 = 44 ∧ cmdGet rem 1 ≠ 0 ∧ cmdGet rem 2 ≠ 0 then
        let checksum := (HexToVal (cmdGet rem 1) <<< 4) ||| HexToVal (cmdGet rem 2)
        let our_checksum := CalcBufferChecksum buf n
        if our_checksum ≠ checksum then
          (st1, "ERR " ++ printHexArduino checksum ++ " " ++ printHexArduino our_checksum
            ++ "\n")
        else success
      else success

/-- `ReadEEPROM()`, handler of the `R` command. -/
def ReadEEPROM (st : MachineState) (cmd : List Nat) : MachineState × String :=
  if cmdGet cmd 1 = 0 then (st, "ERR\n")
  else
    let p := parseAddrRNGo 4 0 (cmd.drop 1)
    let addr := p.1
    let buf := ReadEEPROMIntoBuffer st.chip st.buffer addr kMaxBufferSize
    ({ st with buffer := buf },
     String.mk [hexChar ((addr &&& 0xF000) >>> 12), hexChar ((addr &&& 0x0F00) >>> 8),
                hexChar ((addr &&& 0x00F0) >>> 4), hexChar (addr &&& 0x000F)]
       ++ ":" ++ PrintBuffer buf kMaxBufferSize ++ "OK\n")

/-- `SetSDPState(bWriteProtect)`, handler of `P` (true) and `U` (false):
reads byte 0, issues the JEDEC command writes, then the dummy write of the
preserved byte 0. -/
def SetSDPState (st : MachineState) (bWriteProtect : Bool) : MachineState × String :=
  let bytezero := ReadByteFrom st.chip 0
  let chip1 :=
    if bWriteProtect then
      WriteByteTo (WriteByteTo (WriteByteTo st.chip 0x5555 0xAA) 0x2AAA 0x55) 0x5555 0xA0
    else
      WriteByteTo (WriteByteTo (WriteByteTo (WriteByteTo (WriteByteTo
        (WriteByteTo st.chip 0x5555 0xAA) 0x2AAA 0x55) 0x5555 0x80)
          0x5555 0xAA) 0x2AAA 0x55) 0x5555 0x20
  let chip2 := WriteByteTo chip1 0x0000 bytezero
  ({ st with chip := chip2 },
   "OK SDP " ++ (if bWriteProtect then "enabled\n" else "disabled\n"))

/-- The fill loop of `PrepareBuffer`:
`for (x = 0; x < kPageSize; ++x) pageWr[kPageSize] = 0xFF;` — the body stores
at index `kPageSize` (= 128) on every iteration.  Also returns the store
indices performed, in order. -/
def prepLoop (p : Nat → Nat) : Nat → (Nat → Nat) × List Nat
  | 0 => (p, [])
  | k + 1 =>
    let r := prepLoop (fun i => if i = kPageSize then 0xFF else p i) k
    (r.1, kPageSize :: r.2)

/-- `PrepareBuffer()`, handler of the `N` command.  Third component: the
page-buffer store indices performed. -/
def PrepareBuffer (st : MachineState) (cmd : List Nat) : MachineState × String × List Nat :=
  if cmdGet cmd 1 = 0 then (st, "ERR\n", [])
  else
    let p := parseAddrRNGo 4 0 (cmd.drop 1)
    let r := prepLoop st.pageWr kPageSize
    ({ st with baseAddr := p.1, pageWr := r.1 }, "OK\n", r.2)

/-- The copy-down loop of `FillBuffer`:
`iBufferUsed++; while (iBufferUsed > 0) { iBufferUsed--; pageWr[(addr & 0x7F) + iBufferUsed] = buffer[iBufferUsed]; }`.
`copyDown buf off j p` runs the loop with `iBufferUsed` starting at `j`.
Second/third components: page-buffer store indices and transfer-buffer load
indices, in execution order. -/
def copyDown (buf : Nat → Nat) (off : Nat) : Nat → (Nat → Nat) → (Nat → Nat) × List Nat × List Nat
  | 0, p => (p, [], [])
  | j + 1, p =>
    let r := copyDown buf off j (fun i => if i = off + j then buf j else p i)
    (r.1, (off + j) :: r.2.1, j :: r.2.2)

/-- `FillBuffer()`, handler of the `S` command.  Besides the state and the
reply it returns the page-buffer store indices and the transfer-buffer load
indices performed (checksum loop loads, then copy loop loads). -/
def FillBuffer (st : MachineState) (cmd : List Nat) :
    MachineState × String × List Nat × List Nat :=
  if cmdGet cmd 1 = 0 then (st, "ERR\n", [], [])
  else
    let p := parseAddrWSGo 0 (cmd.drop 1)
    if cmdGet p.2 0 ≠ 58 then (st, "ERR\n", [], [])
    else
      let d := decodeLoop 0 st.buffer (p.2.drop 1)
      let buf := d.1
      let n := d.2.1
      let rem := d.2.2
      let st1 := { st with buffer := buf }
      if cmdGet rem 0 = 44 ∧ cmdGet rem 1 ≠ 0 ∧ cmdGet rem 2 ≠ 0 then
        let checksum := (HexToVal (cmdGet rem 1) <<< 4) ||| HexToVal (cmdGet rem 2)
        let our_checksum := CalcBufferChecksum buf n
        if our_checksum ≠ checksum then
          (st1, "ERR " ++ printHexArduino checksum ++ " " ++ printHexArduino our_checksum
            ++ "\n", [], List.range n)
        else
          let r := copyDown buf (p.1 &&& 0x7F) (n + 1) st1.pageWr
          ({ st1 with pageWr := r.1 }, "OK\n", r.2.1, List.range n ++ r.2.2)
      else
        let r := copyDown buf (p.1 &&& 0x7F) (n + 1) st1.pageWr
        ({ st1 with pageWr := r.1 }, "OK\n", r.2.1, r.2.2)

/-- `SetAddress(a)`: the HIGH/LOW levels driven onto address lines
A0..A14 — only bits 0 through 14 of `a` are consulted. -/
def SetAddress (a : Nat) : List Bool :=
  [a &&& 1 != 0, a &&& 2 != 0, a &&& 4 != 0, a &&& 8 != 0, a &&& 16 != 0,
   a &&& 32 != 0, a &&& 64 != 0, a &&& 128 != 0, a &&& 256 != 0, a &&& 512 != 0,
   a &&& 1024 != 0, a &&& 2048 != 0, a &&& 4096 != 0, a &&& 8192 != 0,
   a &&& 16384 != 0]

/-!
### Spec-side helpers

These are not translations of the source; they are the vocabulary in which
the claims are stated: building canonical command lines (ASCII codes of hex
digits), and reference descriptions of buffer contents and checksums.
-/

/-- ASCII code of the lowercase hex digit for a nibble. -/
def hexCharCode (n : Nat) : Nat := if n < 10 then 48 + n else 87 + n

/-- Hex-pair encoding of a byte list: two lowercase hex chars per byte. -/
def hexPairsChars : List Nat → List Nat
  | [] => []
  | b :: tl => hexCharCode (b / 16) :: hexCharCode (b % 16) :: hexPairsChars tl

/-- Write a byte sequence into a buffer at consecutive indices from `n`. -/
def writeSeq : (Nat → Nat) → Nat → List Nat → Nat → Nat
  | buf, _, [] => buf
  | buf, n, b :: tl => writeSeq (fun i => if i = n then b else buf i) (n + 1) tl

/-- XOR fold of a byte list (the reference checksum). -/
def xorFold (l : List Nat) : Nat := l.foldl (fun a b => a ^^^ b) 0

/-- The value `parseAddrWSGo` accumulates over a given digit-character list. -/
def wsFold : Nat → List Nat → Nat
  | a, [] => a
  | a, c :: tl => wsFold (((a <<< 4) % 65536) ||| HexToVal c) tl

/-- The 4 lowercase hex characters of a 16-bit address. -/
def encodeAddrChars (a : Nat) : List Char :=
  [hexChar (a / 4096 % 16), hexChar (a / 256 % 16), hexChar (a / 16 % 16), hexChar (a % 16)]

/-- Lowercase hex rendering of a byte list, two characters per byte. -/
def bytesHexChars : List Nat → List Char
  | [] => []
  | b :: tl => hexChar (b / 16) :: hexChar (b % 16) :: bytesHexChars tl

/-- A canonical `W`/`S` command line: tag, address characters, `:`, the
payload in hex pairs, then `,` and a two-character checksum. -/
def encodeCmdCk (tag : Nat) (addrChars payload : List Nat) (ck : Nat) : List Nat :=
  tag :: addrChars ++ 58 :: (hexPairsChars payload ++ 44 :: hexCharCode (ck / 16) ::
    hexCharCode (ck % 16) :: [])

/-- A canonical `W`/`S` command line without the optional checksum. -/
def encodeCmd (tag : Nat) (addrChars payload : List Nat) : List Nat :=
  tag :: addrChars ++ 58 :: hexPairsChars payload

/-!
### Basic codec facts
-/

theorem HexToVal_lt (b : Nat) : HexToVal b < 16 := by
  unfold HexToVal
  split_ifs <;> omega

theorem hexCharCode_spec : ∀ d, d < 16 →
    HexToVal (hexCharCode d) = d ∧ hexCharCode d ≠ 0 ∧ hexCharCode d ≠ 44 ∧
      hexCharCode d ≠ 58 := by
  decide

set_option maxRecDepth 4096 in
theorem hexByte_roundtrip : ∀ b, b < 256 → (((b / 16) <<< 4) ||| (b % 16)) = b := by
  decide

/-!
### Behaviour of the parsing and decoding loops on canonical command lines
-/

theorem parseAddrWSGo_encoded (addrChars : List Nat)
    (hA : ∀ c ∈ addrChars, c ≠ 58 ∧ c ≠ 0) (a : Nat) (rest : List Nat) :
    parseAddrWSGo a (addrChars ++ 58 :: rest) = (wsFold a addrChars, 58 :: rest) := by
  induction addrChars generalizing a with
  | nil => simp [parseAddrWSGo, wsFold]
  | cons c tl ih =>
    have hc := hA c (List.mem_cons_self c tl)
    simp only [List.cons_append, parseAddrWSGo, wsFold]
    rw [if_pos ⟨hc.1, hc.2⟩]
    exact ih (fun c' hc' => hA c' (List.mem_cons_of_mem _ hc')) _

theorem decodeLoop_stop (n : Nat) (buf : Nat → Nat) (l : List Nat)
    (h : cmdGet l 0 = 44 ∨ cmdGet l 0 = 0) : decodeLoop n buf l = (buf, n, l) := by
  match l with
  | [] => rfl
  | [c] => rfl
  | c1 :: c2 :: r =>
    simp only [cmdGet, List.getD_cons_zero] at h
    simp only [decodeLoop]
    rw [if_neg]
    rintro ⟨h1, _, _, h44⟩
    rcases h with h | h
    · exact h44 h
    · exact h1 h

theorem decodeLoop_full (buf : Nat → Nat) (l : List Nat) :
    decodeLoop 16 buf l = (buf, 16, l) := by
  match l with
  | [] => rfl
  | [c] => rfl
  | c1 :: c2 :: r => simp [decodeLoop, kMaxBufferSize]

theorem decodeLoop_encoded (payload : List Nat) :
    ∀ (n : Nat) (buf : Nat → Nat) (rest : List Nat),
    (∀ b ∈ payload, b < 256) → n + payload.length ≤ 16 →
    (cmdGet rest 0 = 44 ∨ cmdGet rest 0 = 0) →
    decodeLoop n buf (hexPairsChars payload ++ rest)
      = (writeSeq buf n payload, n + payload.length, rest) := by
  induction payload with
  | nil =>
    intro n buf rest _ _ hstop
    simpa [hexPairsChars, writeSeq] using decodeLoop_stop n buf rest hstop
  | cons b tl ih =>
    intro n buf rest hb hlen hstop
    have hb0 : b < 256 := hb b (List.mem_cons_self b tl)
    have h1 := hexCharCode_spec (b / 16) (by omega)
    have h2 := hexCharCode_spec (b % 16) (by omega)
    simp only [hexPairsChars, List.cons_append, decodeLoop]
    rw [if_pos ⟨h1.2.1, h2.2.1, by simp only [kMaxBufferSize]; simp at hlen; omega,
      h1.2.2.1⟩]
    rw [h1.1, h2.1, hexByte_roundtrip b hb0]
    have hlen' : (n + 1) + tl.length ≤ 16 := by simp at hlen; omega
    have := ih (n + 1) (fun i => if i = n then b else buf i) rest
      (fun b' hb' => hb b' (List.mem_cons_of_mem _ hb')) hlen' hstop
    simp only [List.append_eq]
    rw [this]
    simp only [writeSeq, List.length_cons]
    congr 2
    omega

theorem decodeLoop_encoded_over (payload : List Nat) :
    ∀ (n : Nat) (buf : Nat → Nat),
    (∀ b ∈ payload, b < 256) → 16 < n + payload.length → n ≤ 16 →
    decodeLoop n buf (hexPairsChars payload)
      = (writeSeq buf n (payload.take (16 - n)), 16,
         hexPairsChars (payload.drop (16 - n))) := by
  induction payload with
  | nil => intro n buf _ h hn; simp at h; omega
  | cons b tl ih =>
    intro n buf hb hover hn
    rcases Nat.lt_or_ge n 16 with hlt | hge
    · have hb0 : b < 256 := hb b (List.mem_cons_self b tl)
      have h1 := hexCharCode_spec (b / 16) (by omega)
      have h2 := hexCharCode_spec (b % 16) (by omega)
      simp only [hexPairsChars, decodeLoop]
      rw [if_pos ⟨h1.2.1, h2.2.1, by simp only [kMaxBufferSize]; omega, h1.2.2.1⟩]
      rw [h1.1, h2.1, hexByte_roundtrip b hb0]
      have hk : 16 - n = (16 - (n + 1)) + 1 := by omega
      rcases Nat.lt_or_ge (16 : Nat) ((n + 1) + tl.length) with hover' | hle
      · rw [ih (n + 1) (fun i => if i = n then b else buf i)
          (fun b' hb' => hb b' (List.mem_cons_of_mem _ hb')) hover' (by omega)]
        rw [hk]
        simp only [List.take_succ_cons, List.drop_succ_cons, writeSeq]
      · simp at hover; omega
    · have hn16 : n = 16 := by omega
      subst hn16
      rw [decodeLoop_full]
      simp [Nat.sub_self, writeSeq]

theorem writeSeq_eval (payload : List Nat) :
    ∀ (buf : Nat → Nat) (n i : Nat),
    writeSeq buf n payload i =
      if n ≤ i ∧ i < n + payload.length then payload.getD (i - n) 0 else buf i := by
  induction payload with
  | nil =>
    intro buf n i
    simp only [writeSeq, List.length_nil, Nat.add_zero]
    split_ifs with h
    · omega
    · rfl
  | cons b tl ih =>
    intro buf n i
    simp only [writeSeq, List.length_cons]
    rw [ih]
    split_ifs with h1 h2 h3 h4 h5
    · have hk : i - n = (i - (n + 1)) + 1 := by omega
      rw [hk, List.getD_cons_succ]
    · omega
    · rw [h3, Nat.sub_self, List.getD_cons_zero]
    · omega
    · omega
    · rfl

theorem foldl_range_xor (l : List Nat) :
    ∀ (buf : Nat → Nat) (a : Nat), (∀ i, i < l.length → buf i = l.getD i 0) →
    (List.range l.length).foldl (fun c x => c ^^^ buf x) a
      = l.foldl (fun c b => c ^^^ b) a := by
  induction l with
  | nil => intro buf a _; simp
  | cons b tl ih =>
    intro buf a h
    simp only [List.length_cons, List.range_succ_eq_map, List.foldl_cons, List.foldl_map]
    rw [h 0 (by simp)]
    simp only [List.getD_cons_zero]
    have step := ih (fun i => buf (i + 1)) (a ^^^ b) (fun i hi => by
      have h' := h (i + 1) (by simpa using Nat.succ_lt_succ hi)
      simpa using h')
    simpa [Nat.succ_eq_add_one] using step

theorem CalcBufferChecksum_agree (l : List Nat) (buf : Nat → Nat)
    (h : ∀ i, i < l.length → buf i = l.getD i 0) :
    CalcBufferChecksum buf l.length = xorFold l := by
  unfold CalcBufferChecksum xorFold
  exact foldl_range_xor l buf 0 h

theorem xorFold_acc (l : List Nat) :
    ∀ a, l.foldl (fun x y => x ^^^ y) a = a ^^^ xorFold l := by
  induction l with
  | nil => intro a; simp [xorFold]
  | cons b tl ih =>
    intro a
    simp only [xorFold, List.foldl_cons]
    rw [ih (a ^^^ b), ih (0 ^^^ b)]
    simp [Nat.xor_assoc]

theorem xorFold_cons (b : Nat) (tl : List Nat) : xorFold (b :: tl) = b ^^^ xorFold tl := by
  simp only [xorFold, List.foldl_cons]
  rw [xorFold_acc]
  simp [xorFold]

theorem xorFold_lt_256 (l : List Nat) (h : ∀ b ∈ l, b < 256) : xorFold l < 256 := by
  induction l with
  | nil => simp [xorFold]
  | cons b tl ih =>
    rw [xorFold_cons]
    have h1 : b < 2 ^ 8 := h b (List.mem_cons_self b tl)
    have h2 : xorFold tl < 2 ^ 8 := ih (fun x hx => h x (List.mem_cons_of_mem _ hx))
    exact Nat.xor_lt_two_pow h1 h2

theorem xorFold_set (l : List Nat) : ∀ i m, i < l.length →
    xorFold (l.set i (l.getD i 0 ^^^ m)) = xorFold l ^^^ m := by
  induction l with
  | nil => intro i m h; simp at h
  | cons b tl ih =>
    intro i m h
    match i with
    | 0 =>
      simp only [List.getD_cons_zero, List.set_cons_zero]
      rw [xorFold_cons, xorFold_cons, Nat.xor_assoc, Nat.xor_comm m, ← Nat.xor_assoc]
    | j + 1 =>
      simp only [List.getD_cons_succ, List.set_cons_succ]
      rw [xorFold_cons, xorFold_cons, ih j m (by simpa using Nat.lt_of_succ_lt_succ h),
        Nat.xor_assoc]

theorem and_shiftRight_distrib (a b k : Nat) : (a &&& b) >>> k = (a >>> k) &&& (b >>> k) :=
  Nat.eq_of_testBit_eq fun i => by
    simp [Nat.testBit_shiftRight, Nat.testBit_and]

theorem and_mask_lo (a : Nat) : a &&& 15 = a % 16 := by
  have h := Nat.and_pow_two_sub_one_eq_mod a 4
  norm_num at h
  exact h

theorem byte_hi (b : Nat) (h : b < 256) : (b &&& 0xF0) >>> 4 = b / 16 := by
  rw [and_shiftRight_distrib]
  have h1 : (0xF0 : Nat) >>> 4 = 15 := by decide
  rw [h1, and_mask_lo, Nat.shiftRight_eq_div_pow]
  norm_num
  omega

theorem addr_digit3 (a : Nat) : (a &&& 0xF000) >>> 12 = a / 4096 % 16 := by
  rw [and_shiftRight_distrib]
  have h1 : (0xF000 : Nat) >>> 12 = 15 := by decide
  rw [h1, and_mask_lo, Nat.shiftRight_eq_div_pow]

theorem addr_digit2 (a : Nat) : (a &&& 0x0F00) >>> 8 = a / 256 % 16 := by
  rw [and_shiftRight_distrib]
  have h1 : (0x0F00 : Nat) >>> 8 = 15 := by decide
  rw [h1, and_mask_lo, Nat.shiftRight_eq_div_pow]

theorem addr_digit1 (a : Nat) : (a &&& 0x00F0) >>> 4 = a / 16 % 16 := by
  rw [and_shiftRight_distrib]
  have h1 : (0x00F0 : Nat) >>> 4 = 15 := by decide
  rw [h1, and_mask_lo, Nat.shiftRight_eq_div_pow]

theorem cmdGet_tag_one (t : Nat) (A D : List Nat) (hA : ∀ c ∈ A, c ≠ 58 ∧ c ≠ 0) :
    cmdGet (t :: (A ++ 58 :: D)) 1 ≠ 0 := by
  match A with
  | [] => simp [cmdGet]
  | a :: tl =>
    have h := hA a (List.mem_cons_self a tl)
    simp [cmdGet, h.2]

theorem WriteEEPROM_ck (st : MachineState) (A payload : List Nat) (ck : Nat)
    (hA : ∀ c ∈ A, c ≠ 58 ∧ c ≠ 0) (hb : ∀ b ∈ payload, b < 256)
    (hlen : payload.length ≤ 16) (hck : ck < 256) :
    WriteEEPROM st (encodeCmdCk 87 A payload ck) =
      if xorFold payload ≠ ck then
        ({ st with buffer := writeSeq st.buffer 0 payload },
         "ERR " ++ printHexArduino ck ++ " " ++ printHexArduino (xorFold payload) ++ "\n")
      else
        (if 0 < payload.length then
          { st with
            buffer := writeSeq st.buffer 0 payload,
            chip := WriteBufferToEEPROM st.chip (writeSeq st.buffer 0 payload)
              (wsFold 0 A) payload.length }
         else { st with buffer := writeSeq st.buffer 0 payload },
         "OK\n") := by
  have hc1 := hexCharCode_spec (ck / 16) (by omega)
  have hc2 := hexCharCode_spec (ck % 16) (by omega)
  have htag := cmdGet_tag_one 87 A
    (hexPairsChars payload ++ 44 :: hexCharCode (ck / 16) :: hexCharCode (ck % 16) :: []) hA
  have hdec := decodeLoop_encoded payload 0 st.buffer
    (44 :: hexCharCode (ck / 16) :: hexCharCode (ck % 16) :: []) hb (by omega) (Or.inl rfl)
  have hagree : ∀ i, i < payload.length →
      writeSeq st.buffer 0 payload i = payload.getD i 0 := by
    intro i hi
    rw [writeSeq_eval payload st.buffer 0 i, if_pos ⟨Nat.zero_le i, by omega⟩, Nat.sub_zero]
  have hour := CalcBufferChecksum_agree payload (writeSeq st.buffer 0 payload) hagree
  simp only [encodeCmdCk]
  simp only [WriteEEPROM, List.cons_append, List.drop_one, List.tail_cons]
  rw [if_neg htag, parseAddrWSGo_encoded A hA 0 _]
  dsimp only
  simp only [List.tail_cons]
  rw [hdec]
  dsimp only
  simp [cmdGet, hc1.1, hc2.1, hc1.2.1, hc2.2.1, hexByte_roundtrip ck hck, hour,
    Nat.zero_add]

theorem set_bytes_lt (payload : List Nat) (hb : ∀ b ∈ payload, b < 256) (i k : Nat)
    (hi : i < payload.length) (hk : k < 8) :
    ∀ b ∈ payload.set i (payload.getD i 0 ^^^ 2 ^ k), b < 256 := by
  intro b hmem
  rcases List.mem_or_eq_of_mem_set hmem with h | h
  · exact hb b h
  · subst h
    have h1 : payload.getD i 0 < 2 ^ 8 := by
      rw [List.getD_eq_getElem payload 0 hi]
      exact hb _ (List.getElem_mem hi)
    have h2 : (2 : Nat) ^ k ≤ 2 ^ 7 := Nat.pow_le_pow_right (by omega) (by omega)
    have h3 : (2 : Nat) ^ k < 2 ^ 8 := lt_of_le_of_lt h2 (by norm_num)
    exact Nat.xor_lt_two_pow h1 h3

theorem xor_pow_ne (F k : Nat) : F ^^^ 2 ^ k ≠ F := by
  intro h
  have h2 : F ^^^ (F ^^^ 2 ^ k) = F ^^^ F := by rw [h]
  rw [← Nat.xor_assoc, Nat.xor_self, Nat.zero_xor] at h2
  have h3 : 0 < 2 ^ k := Nat.two_pow_pos k
  omega

/-- Claim C4: a `W` command carrying a payload of at most 16 bytes and its
correct XOR checksum replies `OK`; flipping any single bit of any payload
byte while keeping the original stated checksum yields the checksum-mismatch
`ERR` reply and leaves the chip unwritten. -/
theorem claim_C4 (st : MachineState) (A payload : List Nat)
    (hA : ∀ c ∈ A, c ≠ 58 ∧ c ≠ 0) (hb : ∀ b ∈ payload, b < 256)
    (hlen : payload.length ≤ 16) :
    (WriteEEPROM st (encodeCmdCk 87 A payload (xorFold payload))).2 = "OK\n"
    ∧ ∀ i k, i < payload.length → k < 8 →
      (WriteEEPROM st (encodeCmdCk 87 A (payload.set i (payload.getD i 0 ^^^ 2 ^ k))
          (xorFold payload))).2
        = "ERR " ++ printHexArduino (xorFold payload) ++ " "
          ++ printHexArduino (xorFold payload ^^^ 2 ^ k) ++ "\n"
      ∧ (WriteEEPROM st (encodeCmdCk 87 A (payload.set i (payload.getD i 0 ^^^ 2 ^ k))
          (xorFold payload))).1.chip = st.chip := by
  have hckv : xorFold payload < 256 := xorFold_lt_256 payload hb
  constructor
  · rw [WriteEEPROM_ck st A payload (xorFold payload) hA hb hlen hckv]
    simp
  · intro i k hi hk
    have hb' := set_bytes_lt payload hb i k hi hk
    have hlen' : (payload.set i (payload.getD i 0 ^^^ 2 ^ k)).length ≤ 16 := by
      simpa using hlen
    have hx : xorFold (payload.set i (payload.getD i 0 ^^^ 2 ^ k))
        = xorFold payload ^^^ 2 ^ k := xorFold_set payload i (2 ^ k) hi
    rw [WriteEEPROM_ck st A _ (xorFold payload) hA hb' hlen' hckv, hx,
      if_pos (xor_pow_ne (xorFold payload) k)]
    exact ⟨rfl, rfl⟩

/-- C4 at a concrete input: the one-byte payload `AA` with checksum `AA`
replies `OK`; the same command with bit 0 of the byte flipped and the old
checksum replies `ERR AA AB`. -/
theorem claim_C4_witness :
    (WriteEEPROM ⟨fun _ => 0, fun _ => 0, fun _ => 0, 0⟩
        (encodeCmdCk 87 [48, 48, 48, 48] [170] (xorFold [170]))).2 = "OK\n"
    ∧ (WriteEEPROM ⟨fun _ => 0, fun _ => 0, fun _ => 0, 0⟩
        (encodeCmdCk 87 [48, 48, 48, 48] ([170].set 0 ([170].getD 0 0 ^^^ 2 ^ 0))
          (xorFold [170]))).2
      = "ERR " ++ printHexArduino (xorFold [170]) ++ " "
        ++ printHexArduino (xorFold [170] ^^^ 2 ^ 0) ++ "\n" := by
  have h := claim_C4 ⟨fun _ => 0, fun _ => 0, fun _ => 0, 0⟩ [48, 48, 48, 48] [170]
    (by decide) (by decide) (by decide)
  exact ⟨h.1, (h.2 0 0 (by decide) (by decide)).1⟩

theorem take_getD (payload : List Nat) (i : Nat) (h16 : i < 16)
    (hlen : 16 < payload.length) :
    (payload.take 16).getD i 0 = payload.getD i 0 := by
  have hl : i < (payload.take 16).length := by
    rw [List.length_take]
    omega
  rw [List.getD_eq_getElem _ _ hl, List.getElem_take,
    ← List.getD_eq_getElem payload 0 (by omega)]

/-- Claim C6: a `W` or `S` command whose payload encodes more than 16 bytes
decodes exactly the first 16 bytes into the transfer buffer, silently
ignores the excess, and replies `OK` (no error for the overflow). -/
theorem claim_C6 (st : MachineState) (A payload : List Nat)
    (hA : ∀ c ∈ A, c ≠ 58 ∧ c ≠ 0) (hb : ∀ b ∈ payload, b < 256)
    (hlen : 16 < payload.length) :
    ((WriteEEPROM st (encodeCmd 87 A payload)).2 = "OK\n"
      ∧ (∀ i, i < 16 → (WriteEEPROM st (encodeCmd 87 A payload)).1.buffer i
          = payload.getD i 0)
      ∧ (∀ i, 16 ≤ i → (WriteEEPROM st (encodeCmd 87 A payload)).1.buffer i
          = st.buffer i))
    ∧ ((FillBuffer st (encodeCmd 83 A payload)).2.1 = "OK\n"
      ∧ (∀ i, i < 16 → (FillBuffer st (encodeCmd 83 A payload)).1.buffer i
          = payload.getD i 0)
      ∧ (∀ i, 16 ≤ i → (FillBuffer st (encodeCmd 83 A payload)).1.buffer i
          = st.buffer i)) := by
  have hdec := decodeLoop_encoded_over payload 0 st.buffer hb (by omega) (by omega)
  rw [Nat.sub_zero] at hdec
  have hdropne : payload.drop 16 ≠ [] := by
    apply List.ne_nil_of_length_pos
    rw [List.length_drop]
    omega
  obtain ⟨b17, tl17, hdrop⟩ := List.exists_cons_of_ne_nil hdropne
  have hb17 : b17 < 256 := hb b17 (List.drop_subset 16 payload
    (by rw [hdrop]; exact List.mem_cons_self b17 tl17))
  have h17 := hexCharCode_spec (b17 / 16) (by omega)
  have hnock : ¬(cmdGet (hexPairsChars (payload.drop 16)) 0 = 44
      ∧ cmdGet (hexPairsChars (payload.drop 16)) 1 ≠ 0
      ∧ cmdGet (hexPairsChars (payload.drop 16)) 2 ≠ 0) := by
    rw [hdrop]
    simp only [hexPairsChars, cmdGet, List.getD_cons_zero]
    intro h
    exact h17.2.2.1 h.1
  have hlt : (payload.take 16).length = 16 := by
    rw [List.length_take]
    omega
  have hbuf : ∀ i, (writeSeq st.buffer 0 (payload.take 16)) i
      = if i < 16 then payload.getD i 0 else st.buffer i := by
    intro i
    rw [writeSeq_eval, hlt]
    by_cases h : i < 16
    · rw [if_pos (show 0 ≤ i ∧ i < 0 + 16 from ⟨Nat.zero_le i, by omega⟩), if_pos h,
        Nat.sub_zero, take_getD payload i h hlen]
    · rw [if_neg (show ¬(0 ≤ i ∧ i < 0 + 16) from by omega), if_neg h]
  have htagW := cmdGet_tag_one 87 A (hexPairsChars payload) hA
  have htagS := cmdGet_tag_one 83 A (hexPairsChars payload) hA
  have mainW : WriteEEPROM st (encodeCmd 87 A payload)
      = ({ st with
           buffer := writeSeq st.buffer 0 (payload.take 16),
           chip := WriteBufferToEEPROM st.chip (writeSeq st.buffer 0 (payload.take 16))
             (wsFold 0 A) 16 }, "OK\n") := by
    simp only [encodeCmd]
    simp only [WriteEEPROM, List.cons_append, List.drop_one, List.tail_cons]
    rw [if_neg htagW, parseAddrWSGo_encoded A hA 0 _]
    dsimp only
    simp only [List.tail_cons]
    rw [hdec]
    dsimp only
    rw [if_neg hnock, if_pos (show (0:Nat) < 16 by omega),
      if_neg (show ¬(cmdGet (58 :: hexPairsChars payload) 0 ≠ 58) from fun h => h rfl)]
  have mainS : FillBuffer st (encodeCmd 83 A payload)
      = ({ st with
           buffer := writeSeq st.buffer 0 (payload.take 16),
           pageWr := (copyDown (writeSeq st.buffer 0 (payload.take 16))
             (wsFold 0 A &&& 0x7F) (16 + 1) st.pageWr).1 },
         "OK\n",
         (copyDown (writeSeq st.buffer 0 (payload.take 16))
           (wsFold 0 A &&& 0x7F) (16 + 1) st.pageWr).2.1,
         (copyDown (writeSeq st.buffer 0 (payload.take 16))
           (wsFold 0 A &&& 0x7F) (16 + 1) st.pageWr).2.2) := by
    simp only [encodeCmd]
    simp only [FillBuffer, List.cons_append, List.drop_one, List.tail_cons]
    rw [if_neg htagS, parseAddrWSGo_encoded A hA 0 _]
    dsimp only
    simp only [List.tail_cons]
    rw [hdec]
    dsimp only
    rw [if_neg hnock,
      if_neg (show ¬(cmdGet (58 :: hexPairsChars payload) 0 ≠ 58) from fun h => h rfl)]
  refine ⟨⟨?_, ?_, ?_⟩, ?_, ?_, ?_⟩
  · rw [mainW]
  · intro i hi
    rw [mainW]
    dsimp only
    rw [hbuf i, if_pos hi]
  · intro i hi
    rw [mainW]
    dsimp only
    rw [hbuf i, if_neg (by omega)]
  · rw [mainS]
  · intro i hi
    rw [mainS]
    dsimp only
    rw [hbuf i, if_pos hi]
  · intro i hi
    rw [mainS]
    dsimp only
    rw [hbuf i, if_neg (by omega)]

/-- C6 at a concrete input: a 17-byte payload on both `W` and `S` replies
`OK` rather than an error. -/
theorem claim_C6_witness :
    (WriteEEPROM ⟨fun _ => 0, fun _ => 0, fun _ => 0, 0⟩
      (encodeCmd 87 [48, 48, 48, 48]
        [1, 2, 3, 4, 5, 6, 7, 8, 9, 10, 11, 12, 13, 14, 15, 16, 17])).2 = "OK\n"
    ∧ (FillBuffer ⟨fun _ => 0, fun _ => 0, fun _ => 0, 0⟩
      (encodeCmd 83 [48, 48, 48, 48]
        [1, 2, 3, 4, 5, 6, 7, 8, 9, 10, 11, 12, 13, 14, 15, 16, 17])).2.1 = "OK\n" := by
  have h := claim_C6 ⟨fun _ => 0, fun _ => 0, fun _ => 0, 0⟩ [48, 48, 48, 48]
    [1, 2, 3, 4, 5, 6, 7, 8, 9, 10, 11, 12, 13, 14, 15, 16, 17]
    (by decide) (by decide) (by decide)
  exact ⟨h.1.1, h.2.1⟩

/-- Claim C1, counterexample: on `W0000:AA,BB` the checksum mismatch reply
`ERR BB AA` is emitted, yet the machine state HAS been mutated — the
transfer buffer already holds the decoded byte 0xAA — so "no other state
mutation" is false as stated. -/
theorem claim_C1_counterexample :
    (WriteEEPROM ⟨fun _ => 1, fun _ => 0, fun _ => 2, 3⟩
        [87, 48, 48, 48, 48, 58, 65, 65, 44, 66, 66]).2 = "ERR BB AA\n"
    ∧ (WriteEEPROM ⟨fun _ => 1, fun _ => 0, fun _ => 2, 3⟩
        [87, 48, 48, 48, 48, 58, 65, 65, 44, 66, 66]).1.buffer 0
      ≠ (⟨fun _ => 1, fun _ => 0, fun _ => 2, 3⟩ : MachineState).buffer 0 := by
  decide

/-- Claim C1 (amended): on a `W` command whose trailing checksum mismatches
the XOR of the decoded bytes, the handler emits `ERR <provided> <computed>`
and performs no chip write: the chip, the page buffer and the base address
are exactly as before; only the transfer buffer has been overwritten with
the decoded bytes. -/
theorem claim_C1_amended (st : MachineState) (cmd : List Nat) (buf : Nat → Nat)
    (n : Nat) (rem : List Nat)
    (h1 : cmdGet cmd 1 ≠ 0)
    (hcolon : cmdGet (parseAddrWSGo 0 (cmd.drop 1)).2 0 = 58)
    (hdec : decodeLoop 0 st.buffer ((parseAddrWSGo 0 (cmd.drop 1)).2.drop 1)
      = (buf, n, rem))
    (hcomma : cmdGet rem 0 = 44) (hc1 : cmdGet rem 1 ≠ 0) (hc2 : cmdGet rem 2 ≠ 0)
    (hmm : CalcBufferChecksum buf n
      ≠ ((HexToVal (cmdGet rem 1) <<< 4) ||| HexToVal (cmdGet rem 2))) :
    WriteEEPROM st cmd
      = ({ st with buffer := buf },
         "ERR "
           ++ printHexArduino ((HexToVal (cmdGet rem 1) <<< 4) ||| HexToVal (cmdGet rem 2))
           ++ " " ++ printHexArduino (CalcBufferChecksum buf n) ++ "\n")
    ∧ (WriteEEPROM st cmd).1.chip = st.chip
    ∧ (WriteEEPROM st cmd).1.pageWr = st.pageWr
    ∧ (WriteEEPROM st cmd).1.baseAddr = st.baseAddr := by
  have main : WriteEEPROM st cmd
      = ({ st with buffer := buf },
         "ERR "
           ++ printHexArduino ((HexToVal (cmdGet rem 1) <<< 4) ||| HexToVal (cmdGet rem 2))
           ++ " " ++ printHexArduino (CalcBufferChecksum buf n) ++ "\n") := by
    simp only [WriteEEPROM]
    rw [if_neg h1,
      if_neg (show ¬(cmdGet (parseAddrWSGo 0 (cmd.drop 1)).2 0 ≠ 58) from
        fun h => h hcolon),
      hdec]
    dsimp only
    rw [if_pos ⟨hcomma, hc1, hc2⟩, if_pos hmm]
  exact ⟨main, by rw [main], by rw [main], by rw [main]⟩

/-- C1 (amended) at a concrete input: `W0000:AA,BB` leaves chip, page buffer
and base address untouched and emits `ERR BB AA`; the transfer buffer holds
the decoded byte. -/
theorem claim_C1_witness :
    WriteEEPROM ⟨fun _ => 1, fun _ => 5, fun _ => 2, 3⟩
        [87, 48, 48, 48, 48, 58, 65, 65, 44, 66, 66]
      = ({ chip := fun _ => 1, buffer := fun i => if i = 0 then 170 else 5,
           pageWr := fun _ => 2, baseAddr := 3 },
         "ERR " ++ printHexArduino 187 ++ " " ++ printHexArduino 170 ++ "\n") :=
  (claim_C1_amended ⟨fun _ => 1, fun _ => 5, fun _ => 2, 3⟩
    [87, 48, 48, 48, 48, 58, 65, 65, 44, 66, 66]
    (fun i => if i = 0 then 170 else 5) 1 [44, 66, 66]
    (by decide) (by decide) rfl (by decide) (by decide) (by decide) (by decide)).1

/-- Claim C2 (code bug, evaluated at the failing input `N0100` with a page
buffer previously holding 0): the handler sets the base address to 0x0100
and replies `OK`, but the in-range page-buffer bytes are NOT reset to 0xFF
(index 0 still holds 0); the 0xFF stores all land at the out-of-bounds
index 128. -/
theorem claim_C2_bug :
    (PrepareBuffer ⟨fun _ => 9, fun _ => 0, fun _ => 0, 0⟩
        [78, 48, 49, 48, 48]).1.baseAddr = 256
    ∧ (PrepareBuffer ⟨fun _ => 9, fun _ => 0, fun _ => 0, 0⟩
        [78, 48, 49, 48, 48]).2.1 = "OK\n"
    ∧ (PrepareBuffer ⟨fun _ => 9, fun _ => 0, fun _ => 0, 0⟩
        [78, 48, 49, 48, 48]).1.pageWr 0 = 0
    ∧ (PrepareBuffer ⟨fun _ => 9, fun _ => 0, fun _ => 0, 0⟩
        [78, 48, 49, 48, 48]).1.pageWr 128 = 255 := by
  decide

/-- Claim C3 (code bug, evaluated at the failing input `S00:AA` with a stale
transfer buffer holding 7 at index 1 and a page buffer of all 255): the copy
loop runs one iteration too many, so besides `pageWr[0] := 0xAA` it also
overwrites `pageWr[1]` with the stale transfer-buffer byte 7. -/
theorem claim_C3_bug :
    (FillBuffer ⟨fun _ => 9, fun i => if i = 1 then 7 else 0, fun _ => 255, 0⟩
        [83, 48, 48, 58, 65, 65]).2.1 = "OK\n"
    ∧ (FillBuffer ⟨fun _ => 9, fun i => if i = 1 then 7 else 0, fun _ => 255, 0⟩
        [83, 48, 48, 58, 65, 65]).1.pageWr 0 = 170
    ∧ (FillBuffer ⟨fun _ => 9, fun i => if i = 1 then 7 else 0, fun _ => 255, 0⟩
        [83, 48, 48, 58, 65, 65]).1.pageWr 1 = 7 := by
  decide

/-- Claim C9 (code bug, evaluated at failing inputs): `N0` stores to
page-buffer index 128 (capacity 128); `S7F:` followed by 16 payload bytes
stores to page-buffer index 143 and loads transfer-buffer index 16
(capacity 16). -/
theorem claim_C9_bug :
    128 ∈ (PrepareBuffer ⟨fun _ => 0, fun _ => 0, fun _ => 0, 0⟩ [78, 48]).2.2
    ∧ 143 ∈ (FillBuffer ⟨fun _ => 0, fun _ => 0, fun _ => 0, 0⟩
        ([83, 55, 70, 58] ++ hexPairsChars (List.replicate 16 65))).2.2.1
    ∧ 16 ∈ (FillBuffer ⟨fun _ => 0, fun _ => 0, fun _ => 0, 0⟩
        ([83, 55, 70, 58] ++ hexPairsChars (List.replicate 16 65))).2.2.2 := by
  decide

/-- Claim C5, counterexample: the `W`/`S` address parser does not stop after
the 4th hex digit: on the address part of `W12345:` it consumes all five
digits (5 > 4), yielding 0x12345 mod 2^16 = 0x2345 = 9029 instead of the
4-digit prefix 0x1234. -/
theorem claim_C5_counterexample :
    (parseAddrWSGo 0 [49, 50, 51, 52, 53, 58]).1 = 9029
    ∧ ¬((6 : Nat) - (parseAddrWSGo 0 [49, 50, 51, 52, 53, 58]).2.length ≤ 4) := by
  decide

theorem parseAddrRNGo_consumed : ∀ (k : Nat) (l : List Nat) (a : Nat),
    l.length - (parseAddrRNGo k a l).2.length ≤ k := by
  intro k
  induction k with
  | zero => intro l a; simp [parseAddrRNGo]
  | succ k ih =>
    intro l a
    match l with
    | [] => simp [parseAddrRNGo]
    | c :: rest =>
      simp only [parseAddrRNGo]
      by_cases hc : c ≠ 0
      · rw [if_pos hc]
        have h := ih rest ((a <<< 4) ||| HexToVal c)
        simp only [List.length_cons]
        omega
      · rw [if_neg hc]
        simp

theorem two_pow_le_65536 (j : Nat) (hj : j ≤ 16) : (2 : Nat) ^ j ≤ 65536 := by
  calc (2 : Nat) ^ j ≤ 2 ^ 16 := Nat.pow_le_pow_right (by norm_num) hj
    _ = 65536 := by norm_num

theorem parseAddrRNGo_lt : ∀ (k : Nat) (a : Nat) (l : List Nat), k ≤ 4 →
    a < 2 ^ (4 * (4 - k)) → (parseAddrRNGo k a l).1 < 65536 := by
  intro k
  induction k with
  | zero =>
    intro a l _ ha
    simpa [parseAddrRNGo] using lt_of_lt_of_le ha (two_pow_le_65536 _ (by omega))
  | succ k ih =>
    intro a l hk ha
    match l with
    | [] =>
      simp only [parseAddrRNGo]
      exact lt_of_lt_of_le ha (two_pow_le_65536 _ (by omega))
    | c :: rest =>
      simp only [parseAddrRNGo]
      by_cases hc : c ≠ 0
      · rw [if_pos hc]
        apply ih _ rest (by omega)
        have hsplit : 4 * (4 - k) = 4 * (4 - (k + 1)) + 4 := by omega
        have h1 : a <<< 4 < 2 ^ (4 * (4 - k)) := by
          rw [Nat.shiftLeft_eq, hsplit, pow_add]
          exact mul_lt_mul_of_pos_right ha (by norm_num)
        have h2 : HexToVal c < 2 ^ (4 * (4 - k)) := by
          apply lt_of_lt_of_le (HexToVal_lt c)
          have h16 : (16 : Nat) = 2 ^ 4 := by norm_num
          rw [h16]
          exact Nat.pow_le_pow_right (by norm_num) (by omega)
        exact Nat.or_lt_two_pow h1 h2
      · rw [if_neg hc]
        exact lt_of_lt_of_le ha (two_pow_le_65536 _ (by omega))

theorem parseAddrWSGo_stop : ∀ (l : List Nat) (a : Nat),
    cmdGet (parseAddrWSGo a l).2 0 = 58 ∨ cmdGet (parseAddrWSGo a l).2 0 = 0 := by
  intro l
  induction l with
  | nil => intro a; right; rfl
  | cons c rest ih =>
    intro a
    simp only [parseAddrWSGo]
    by_cases h58 : c = 58
    · rw [if_neg (by simp [h58])]
      left
      simp [cmdGet, h58]
    · by_cases h0 : c = 0
      · rw [if_neg (by simp [h0])]
        right
        simp [cmdGet, h0]
      · rw [if_pos ⟨h58, h0⟩]
        exact ih _

theorem parseAddrWSGo_lt : ∀ (l : List Nat) (a : Nat), a < 65536 →
    (parseAddrWSGo a l).1 < 65536 := by
  intro l
  induction l with
  | nil => intro a ha; simpa [parseAddrWSGo] using ha
  | cons c rest ih =>
    intro a ha
    simp only [parseAddrWSGo]
    split_ifs with h
    · apply ih
      have h65536 : (65536 : Nat) = 2 ^ 16 := by norm_num
      have h1 : (a <<< 4) % 65536 < 2 ^ 16 := by
        rw [← h65536]
        exact Nat.mod_lt _ (by norm_num)
      have h2 : HexToVal c < 2 ^ 16 := by
        apply lt_of_lt_of_le (HexToVal_lt c)
        norm_num
      rw [h65536]
      exact Nat.or_lt_two_pow h1 h2
    · simpa using ha

/-- Claim C5 (amended): the `R`/`N` address parser consumes at most 4 hex
digits, stopping at line end or the digit cap (not at `:`); the `W`/`S`
address parser stops only at `:` or line end, with no digit cap,
accumulating in a 16-bit `int`; in all four commands the parsed address fits
in 16 bits. -/
theorem claim_C5_amended :
    (∀ l : List Nat, l.length - (parseAddrRNGo 4 0 l).2.length ≤ 4)
    ∧ (∀ l : List Nat, (parseAddrRNGo 4 0 l).1 < 65536)
    ∧ (∀ l : List Nat, cmdGet (parseAddrWSGo 0 l).2 0 = 58
        ∨ cmdGet (parseAddrWSGo 0 l).2 0 = 0)
    ∧ (∀ l : List Nat, (parseAddrWSGo 0 l).1 < 65536) :=
  ⟨fun l => parseAddrRNGo_consumed 4 l 0,
   fun l => parseAddrRNGo_lt 4 0 l (le_refl 4) (by norm_num),
   fun l => parseAddrWSGo_stop l 0,
   fun l => parseAddrWSGo_lt l 0 (by norm_num)⟩

theorem bytesHexChars_append (l1 l2 : List Nat) :
    bytesHexChars (l1 ++ l2) = bytesHexChars l1 ++ bytesHexChars l2 := by
  induction l1 with
  | nil => simp [bytesHexChars]
  | cons b tl ih => simp [bytesHexChars, ih]

theorem xorFold_append_single (l : List Nat) (b : Nat) :
    xorFold (l ++ [b]) = xorFold l ^^^ b := by
  unfold xorFold
  rw [List.foldl_append]
  simp

theorem PrintBuffer_fold (size : Nat) (buf : Nat → Nat)
    (h : ∀ i, i < size → buf i < 256) :
    (List.range size).foldl
      (fun (acc : List Char × Nat) x =>
        (acc.1 ++ [hexChar ((buf x &&& 0xF0) >>> 4), hexChar (buf x &&& 0x0F)],
         acc.2 ^^^ buf x)) ([], 0)
    = (bytesHexChars ((List.range size).map buf),
       xorFold ((List.range size).map buf)) := by
  induction size with
  | zero => simp [bytesHexChars, xorFold]
  | succ k ih =>
    rw [List.range_succ, List.foldl_append, List.map_append,
      ih (fun i hi => h i (by omega))]
    simp only [List.foldl_cons, List.foldl_nil, List.map_cons, List.map_nil]
    rw [bytesHexChars_append, xorFold_append_single,
      byte_hi (buf k) (h k (by omega)), and_mask_lo]
    rfl

theorem PrintBuffer_spec (size : Nat) (buf : Nat → Nat)
    (h : ∀ i, i < size → buf i < 256) :
    PrintBuffer buf size
      = String.mk (bytesHexChars ((List.range size).map buf)) ++ ","
        ++ String.mk [hexChar (xorFold ((List.range size).map buf) / 16),
                      hexChar (xorFold ((List.range size).map buf) % 16)] ++ "\n" := by
  have hchk : xorFold ((List.range size).map buf) < 256 := by
    apply xorFold_lt_256
    intro b hb
    obtain ⟨i, hi, rfl⟩ := List.mem_map.mp hb
    exact h i (List.mem_range.mp hi)
  simp only [PrintBuffer]
  rw [PrintBuffer_fold size buf h]
  dsimp only
  rw [byte_hi _ hchk, and_mask_lo]

theorem ReadEEPROMIntoBuffer_eval : ∀ (size : Nat) (chip buf : Nat → Nat) (addr i : Nat),
    ReadEEPROMIntoBuffer chip buf addr size i
      = if i < size then ReadByteFrom chip (addr + i) else buf i := by
  intro size
  induction size with
  | zero => intro chip buf addr i; simp [ReadEEPROMIntoBuffer]
  | succ k ih =>
    intro chip buf addr i
    have ihk := ih chip buf addr i
    unfold ReadEEPROMIntoBuffer at ihk ⊢
    rw [List.range_succ, List.foldl_append]
    simp only [List.foldl_cons, List.foldl_nil]
    show (if i = k then ReadByteFrom chip (addr + k)
        else (List.foldl
          (fun b x => fun j => if j = x then ReadByteFrom chip (addr + x) else b j)
          buf (List.range k)) i)
      = if i < k + 1 then ReadByteFrom chip (addr + i) else buf i
    by_cases hik : i = k
    · subst hik
      simp
    · rw [if_neg hik, ihk]
      clear ih ihk
      split_ifs with h1 h2 h2
      · rfl
      · omega
      · omega
      · rfl

/-- Claim C7: an `R` command with a non-empty address replies with the
4-hex-digit parsed address, `:`, the 32 lowercase hex characters of the 16
bytes read starting at that address, `,`, the 2-hex-digit XOR checksum of
those 16 bytes, then `OK`. -/
theorem claim_C7 (st : MachineState) (cmd : List Nat) (h1 : cmdGet cmd 1 ≠ 0) :
    (ReadEEPROM st cmd).2
      = String.mk (encodeAddrChars (parseAddrRNGo 4 0 (cmd.drop 1)).1) ++ ":"
        ++ (String.mk (bytesHexChars ((List.range 16).map
              (fun x => ReadByteFrom st.chip ((parseAddrRNGo 4 0 (cmd.drop 1)).1 + x))))
            ++ ","
            ++ String.mk
              [hexChar (xorFold ((List.range 16).map
                 (fun x => ReadByteFrom st.chip ((parseAddrRNGo 4 0 (cmd.drop 1)).1 + x)))
                 / 16),
               hexChar (xorFold ((List.range 16).map
                 (fun x => ReadByteFrom st.chip ((parseAddrRNGo 4 0 (cmd.drop 1)).1 + x)))
                 % 16)]
            ++ "\n")
        ++ "OK\n" := by
  simp only [ReadEEPROM, kMaxBufferSize]
  rw [if_neg h1]
  dsimp only
  have hb : ∀ i, i < 16 →
      ReadEEPROMIntoBuffer st.chip st.buffer (parseAddrRNGo 4 0 (cmd.drop 1)).1 16 i
        < 256 := by
    intro i hi
    rw [ReadEEPROMIntoBuffer_eval, if_pos hi]
    exact Nat.mod_lt _ (by norm_num)
  rw [PrintBuffer_spec 16 _ hb]
  have hmap : (List.range 16).map
        (ReadEEPROMIntoBuffer st.chip st.buffer (parseAddrRNGo 4 0 (cmd.drop 1)).1 16)
      = (List.range 16).map
        (fun x => ReadByteFrom st.chip ((parseAddrRNGo 4 0 (cmd.drop 1)).1 + x)) := by
    apply List.map_congr_left
    intro a ha
    rw [ReadEEPROMIntoBuffer_eval, if_pos (List.mem_range.mp ha)]
  rw [hmap, addr_digit3, addr_digit2, addr_digit1, and_mask_lo]
  rfl

/-- C7 at the concrete input from the spec: `R0000` on an all-0xFF chip
replies `0000:ffffffffffffffffffffffffffffffff,00` then `OK`. -/
theorem claim_C7_witness :
    (ReadEEPROM ⟨fun _ => 255, fun _ => 0, fun _ => 0, 0⟩ [82, 48, 48, 48, 48]).2
      = "0000:ffffffffffffffffffffffffffffffff,00\nOK\n" := by
  rw [claim_C7 ⟨fun _ => 255, fun _ => 0, fun _ => 0, 0⟩ [82, 48, 48, 48, 48] (by decide)]
  decide

/-- Claim C8: the `P`/`U` (software-data-protection) sequence preserves
byte 0 of the chip: reading byte 0 before and after yields the same value,
because the handler reads byte 0 first and its final dummy write stores that
value back to address 0. -/
theorem claim_C8 (st : MachineState) (bWriteProtect : Bool) :
    ReadByteFrom (SetSDPState st bWriteProtect).1.chip 0 = ReadByteFrom st.chip 0 := by
  cases bWriteProtect <;> simp [SetSDPState, WriteByteTo, ReadByteFrom]

theorem and_two_pow_congr (a b i : Nat) (hi : i < 15) (h : a % 32768 = b % 32768) :
    a &&& 2 ^ i = b &&& 2 ^ i := by
  have h15 : (2 : Nat) ^ 15 = 32768 := by norm_num
  have h' : a % 2 ^ 15 = b % 2 ^ 15 := by rw [h15]; exact h
  have key : a.testBit i = b.testBit i := by
    calc a.testBit i = (a % 2 ^ 15).testBit i := by
          rw [Nat.testBit_mod_two_pow]
          simp [hi]
      _ = (b % 2 ^ 15).testBit i := by rw [h']
      _ = b.testBit i := by
          rw [Nat.testBit_mod_two_pow]
          simp [hi]
  rw [Nat.and_two_pow, Nat.and_two_pow, key]

/-- Claim C10: `SetAddress` drives only address bits 0 through 14, so two
addresses congruent modulo 2^15 = 0x8000 drive identical address-line
states; higher bits of the address are ignored. -/
theorem claim_C10 (a b : Nat) (h : a % 32768 = b % 32768) :
    SetAddress a = SetAddress b := by
  have key : ∀ i, i < 15 → a &&& 2 ^ i = b &&& 2 ^ i :=
    fun i hi => and_two_pow_congr a b i hi h
  have k0 := key 0 (by norm_num)
  have k1 := key 1 (by norm_num)
  have k2 := key 2 (by norm_num)
  have k3 := key 3 (by norm_num)
  have k4 := key 4 (by norm_num)
  have k5 := key 5 (by norm_num)
  have k6 := key 6 (by norm_num)
  have k7 := key 7 (by norm_num)
  have k8 := key 8 (by norm_num)
  have k9 := key 9 (by norm_num)
  have k10 := key 10 (by norm_num)
  have k11 := key 11 (by norm_num)
  have k12 := key 12 (by norm_num)
  have k13 := key 13 (by norm_num)
  have k14 := key 14 (by norm_num)
  norm_num at k0 k1 k2 k3 k4 k5 k6 k7 k8 k9 k10 k11 k12 k13 k14
  simp only [SetAddress, Nat.and_one_is_mod]
  rw [k0, k1, k2, k3, k4, k5, k6, k7, k8, k9, k10, k11, k12, k13, k14]

/-- C10 at a concrete input: addresses 0x8001 and 0x0001 (congruent modulo
0x8000) drive the same address lines. -/
theorem claim_C10_witness : SetAddress 32769 = SetAddress 1 :=
  claim_C10 32769 1 (by decide)
